import Mathlib

/-!
Shallow embedding of the MoneyTracker expense-ledger core
(`src/moneytracker_bot.py`).

The ledger is the Python structure
`{user_id: {date_str: [(name, amount, category), ...]}}`.
Python `dict`s preserve insertion order and have unique keys; we model them
as association lists, with `dictGet` modelling `d.get(k, default)` and
`dictSet` modelling the assignment `d[k] = v` (which overwrites in place
when the key is present and appends at the end when it is absent).
ISO date strings `"YYYY-MM-DD"` are modelled by their parsed form `Date`;
monetary amounts (Python floats) are modelled as exact rationals `ℚ`.
The ambient `date.today()` is passed everywhere as an explicit `today`
parameter.
-/

/-- A calendar date, the parsed form of the ISO string `str(date.today())`. -/
structure Date where
  year : Nat
  month : Nat
  day : Nat
deriving DecidableEq, Repr

/-- Numeric key under which ISO date strings compare: for calendar dates
(month and day below 100, year below 10000) lexicographic comparison of the
ISO strings agrees with comparison of this key. -/
def Date.key (d : Date) : Nat :=
  d.year * 10000 + d.month * 100 + d.day

/-- One recorded expense: the tuple `(name, amount, category)`. -/
structure Entry where
  name : String
  amount : ℚ
  category : String
deriving DecidableEq, Repr

/-- Ordered list of entries of one user on one date. -/
abbrev DayBucket := List Entry

/-- `{date_str: [entry, ...]}` for one user. -/
abbrev UserLedger := List (Date × DayBucket)

/-- The root structure `expenses`: `{user_id: {date_str: [...]}}`. -/
abbrev Ledger := List (String × UserLedger)

/-- `CATEGORIES` from the source: the fixed category list. -/
def CATEGORIES : List String :=
  ["Food", "Drinks", "Entertainment", "Misc.", "Transport", "Travel", "Housing"]

/-- Python `d.get(k, default)` on an insertion-ordered dict. -/
def dictGet {α β : Type} [DecidableEq α] : List (α × β) → α → β → β
  | [], _, dflt => dflt
  | (k', v') :: rest, k, dflt => if k' = k then v' else dictGet rest k dflt

/-- Python `d[k] = v`: overwrite in place when present, append when absent. -/
def dictSet {α β : Type} [DecidableEq α] : List (α × β) → α → β → List (α × β)
  | [], k, v => [(k, v)]
  | (k', v') :: rest, k, v =>
      if k' = k then (k, v) :: rest else (k', v') :: dictSet rest k v

/-- `get_user_data`: today's bucket for a user, `[]` when absent. -/
def get_user_data (expenses : Ledger) (user_id : String) (today : Date) :
    DayBucket :=
  dictGet (dictGet expenses user_id []) today []

/-- The total computed inside `format_summary`:
`sum(amount for _, amount, _ in expense_list)`. -/
def format_summary_total (expense_list : DayBucket) : ℚ :=
  (expense_list.map Entry.amount).sum

/-- `add_expense_to_data`: create the user map and today's bucket when
absent, then append the entry tuple and persist. -/
def add_expense_to_data (expenses : Ledger) (user_id : String) (today : Date)
    (name : String) (amount : ℚ) (category : String) : Ledger :=
  let user_data := dictGet expenses user_id []
  let bucket := dictGet user_data today []
  dictSet expenses user_id
    (dictSet user_data today (bucket ++ [⟨name, amount, category⟩]))

/-- `undo`: pop the last entry of today's bucket when non-empty (the pop
mutates the stored list in place, modelled by writing back the shortened
bucket); when today's bucket is empty or absent, reply "No expenses to undo
today" (modelled as `none`) and leave the ledger unchanged. -/
def undo (expenses : Ledger) (user_id : String) (today : Date) :
    Option Entry × Ledger :=
  let today_expenses := dictGet (dictGet expenses user_id []) today []
  match today_expenses.getLast? with
  | none => (none, expenses)
  | some removed =>
      (some removed,
        dictSet expenses user_id
          (dictSet (dictGet expenses user_id []) today
            today_expenses.dropLast))

-- Basic dictionary lemmas

theorem dictGet_dictSet_self {α β : Type} [DecidableEq α]
    (m : List (α × β)) (k : α) (v : β) (dflt : β) :
    dictGet (dictSet m k v) k dflt = v := by
  induction m with
  | nil => simp [dictGet, dictSet]
  | cons p rest ih =>
      by_cases h : p.1 = k
      · simp [dictGet, dictSet, h]
      · simp [dictGet, dictSet, h, ih]

theorem dictGet_dictSet_ne {α β : Type} [DecidableEq α]
    (m : List (α × β)) (k k' : α) (v : β) (dflt : β) (h : k' ≠ k) :
    dictGet (dictSet m k v) k' dflt = dictGet m k' dflt := by
  induction m with
  | nil => simp [dictGet, dictSet, h.symm]
  | cons p rest ih =>
      by_cases hp : p.1 = k
      · subst hp
        simp [dictGet, dictSet, h.symm]
      · simp only [dictSet, if_neg hp, dictGet]
        by_cases hp' : p.1 = k'
        · simp [hp']
        · simp [hp', ih]

-- Effect of add_expense_to_data on buckets

theorem get_user_data_add_self (e : Ledger) (u : String) (t : Date)
    (n : String) (a : ℚ) (c : String) :
    get_user_data (add_expense_to_data e u t n a c) u t =
      get_user_data e u t ++ [⟨n, a, c⟩] := by
  simp [get_user_data, add_expense_to_data, dictGet_dictSet_self]

theorem get_user_data_add_ne (e : Ledger) (u : String) (t : Date)
    (n : String) (a : ℚ) (c : String) (v : String) (d : Date)
    (h : v ≠ u ∨ d ≠ t) :
    get_user_data (add_expense_to_data e u t n a c) v d =
      get_user_data e v d := by
  rcases h with h | h
  · simp [get_user_data, add_expense_to_data, dictGet_dictSet_ne _ _ _ _ _ h]
  · by_cases hv : v = u
    · subst hv
      simp [get_user_data, add_expense_to_data, dictGet_dictSet_self,
        dictGet_dictSet_ne _ _ _ _ _ h]
    · simp [get_user_data, add_expense_to_data,
        dictGet_dictSet_ne _ _ _ _ _ hv]

-- Writing a bucket back: effect on every (user, date) slot

theorem get_user_data_write_self (e : Ledger) (u : String) (t : Date)
    (b : DayBucket) :
    get_user_data (dictSet e u (dictSet (dictGet e u []) t b)) u t = b := by
  simp [get_user_data, dictGet_dictSet_self]

theorem get_user_data_write_ne (e : Ledger) (u : String) (t : Date)
    (b : DayBucket) (v : String) (d : Date) (h : v ≠ u ∨ d ≠ t) :
    get_user_data (dictSet e u (dictSet (dictGet e u []) t b)) v d =
      get_user_data e v d := by
  rcases h with h | h
  · simp [get_user_data, dictGet_dictSet_ne _ _ _ _ _ h]
  · by_cases hv : v = u
    · subst hv
      simp [get_user_data, dictGet_dictSet_self,
        dictGet_dictSet_ne _ _ _ _ _ h]
    · simp [get_user_data, dictGet_dictSet_ne _ _ _ _ _ hv]

/-- `(name, amount, category)` message data turned into the stored tuple. -/
def mkEntry (c : String × ℚ × String) : Entry := ⟨c.1, c.2.1, c.2.2⟩

/-- A sequence of successful recorded expenses for one user on one day:
each call runs `add_expense_to_data` on the ledger left by the previous. -/
def record_calls (e : Ledger) (u : String) (t : Date)
    (calls : List (String × ℚ × String)) : Ledger :=
  calls.foldl (fun acc c => add_expense_to_data acc u t c.1 c.2.1 c.2.2) e

theorem get_user_data_record_calls (u : String) (t : Date)
    (calls : List (String × ℚ × String)) (e : Ledger) :
    get_user_data (record_calls e u t calls) u t =
      get_user_data e u t ++ calls.map mkEntry := by
  induction calls generalizing e with
  | nil => simp [record_calls]
  | cons c rest ih =>
      simp only [record_calls, List.foldl_cons] at *
      rw [ih, get_user_data_add_self]
      simp [mkEntry]

-- Behaviour of undo on the two shapes of today's bucket

theorem undo_of_empty (e : Ledger) (u : String) (t : Date)
    (h : get_user_data e u t = []) : undo e u t = (none, e) := by
  simp only [undo, get_user_data] at h ⊢
  rw [h]
  rfl

theorem undo_of_concat (e : Ledger) (u : String) (t : Date)
    (b : DayBucket) (x : Entry) (h : get_user_data e u t = b ++ [x]) :
    undo e u t =
      (some x, dictSet e u (dictSet (dictGet e u []) t b)) := by
  simp only [undo, get_user_data] at h ⊢
  rw [h, List.getLast?_concat, List.dropLast_concat]

theorem get_user_data_undo_ne (e : Ledger) (u : String) (t : Date)
    (v : String) (d : Date) (h : v ≠ u ∨ d ≠ t) :
    get_user_data (undo e u t).2 v d = get_user_data e v d := by
  rcases List.eq_nil_or_concat (get_user_data e u t) with hb | ⟨b, x, hb⟩
  · rw [undo_of_empty e u t hb]
  · rw [List.concat_eq_append] at hb
    rw [undo_of_concat e u t b x hb]
    exact get_user_data_write_ne e u t b v d h

/-- The events the transport adapter dispatches to the ledger core: the two
mutating commands carry the data of `add_expense_to_data` / `undo`; the four
summary handlers only read `expenses`. -/
inductive Command where
  | record (u : String) (name : String) (amount : ℚ) (category : String)
  | undoLast (u : String)
  | daily (u : String)
  | weekly (u : String)
  | monthDaily (u : String)
  | monthCategory (u : String)

/-- How one dispatched command transforms the shared `expenses` structure:
`record` runs `add_expense_to_data`, `undoLast` runs `undo`, and the four
summary handlers never assign to `expenses` (they are read-only in the
source), so they leave the ledger unchanged. -/
def stepLedger (today : Date) (e : Ledger) : Command → Ledger
  | .record u n a c => add_expense_to_data e u today n a c
  | .undoLast u => (undo e u today).2
  | .daily _ => e
  | .weekly _ => e
  | .monthDaily _ => e
  | .monthCategory _ => e

/-- The one (user, date) slot a command may write: today's bucket of the
issuing user for the two mutators, nothing for the summaries. -/
def Command.mutTarget (today : Date) : Command → Option (String × Date)
  | .record u _ _ _ => some (u, today)
  | .undoLast u => some (u, today)
  | _ => none

/-- Claim C1: starting from a ledger holding no entries for user `u` on day
`t`, any sequence of successful `recordExpense` calls on that day makes the
daily summary return the recorded entries as an ordered list in call order,
whose length equals the number of calls and whose `format_summary` total
equals the sum of the recorded amounts. -/
theorem daily_summary_of_record_sequence (e : Ledger) (u : String) (t : Date)
    (calls : List (String × ℚ × String)) (h : get_user_data e u t = []) :
    get_user_data (record_calls e u t calls) u t = calls.map mkEntry ∧
    (get_user_data (record_calls e u t calls) u t).length = calls.length ∧
    format_summary_total (get_user_data (record_calls e u t calls) u t) =
      (calls.map (fun c => c.2.1)).sum := by
  have hb := get_user_data_record_calls u t calls e
  rw [h, List.nil_append] at hb
  refine ⟨hb, ?_, ?_⟩
  · rw [hb, List.length_map]
  · rw [hb, format_summary_total, List.map_map]
    rfl

theorem daily_summary_of_record_sequence_witness :
    get_user_data (record_calls [] "1" ⟨2026, 10, 12⟩
        [("coffee", 5, "Food"), ("lunch", 25/2, "Food")]) "1" ⟨2026, 10, 12⟩ =
      [("coffee", (5 : ℚ), "Food"), ("lunch", (25/2 : ℚ), "Food")].map mkEntry ∧
    (get_user_data (record_calls [] "1" ⟨2026, 10, 12⟩
        [("coffee", 5, "Food"), ("lunch", 25/2, "Food")]) "1"
        ⟨2026, 10, 12⟩).length =
      ([("coffee", (5 : ℚ), "Food"), ("lunch", (25/2 : ℚ), "Food")] :
        List (String × ℚ × String)).length ∧
    format_summary_total (get_user_data (record_calls [] "1" ⟨2026, 10, 12⟩
        [("coffee", 5, "Food"), ("lunch", 25/2, "Food")]) "1" ⟨2026, 10, 12⟩) =
      (([("coffee", (5 : ℚ), "Food"), ("lunch", (25/2 : ℚ), "Food")] :
        List (String × ℚ × String)).map (fun c => c.2.1)).sum :=
  daily_summary_of_record_sequence [] "1" ⟨2026, 10, 12⟩
    [("coffee", 5, "Food"), ("lunch", 25/2, "Food")] rfl

/-- Claim C2: `undoLast` on an empty or absent today-bucket signals
"nothing to undo" (`none`) and leaves the ledger unchanged; on a non-empty
today-bucket it removes exactly the most recently appended entry (list pop);
and it never touches any other user's data or any other date of the same
user, so an entry recorded on an earlier date can never be removed by it. -/
theorem undoLast_pops_today_only (e : Ledger) (u : String) (t : Date) :
    (get_user_data e u t = [] → undo e u t = (none, e)) ∧
    (∀ b x, get_user_data e u t = b ++ [x] →
      (undo e u t).1 = some x ∧ get_user_data (undo e u t).2 u t = b) ∧
    (∀ v d, v ≠ u ∨ d ≠ t →
      get_user_data (undo e u t).2 v d = get_user_data e v d) := by
  refine ⟨undo_of_empty e u t, ?_, get_user_data_undo_ne e u t⟩
  intro b x hb
  rw [undo_of_concat e u t b x hb]
  exact ⟨rfl, get_user_data_write_self e u t b⟩

theorem undoLast_pops_today_only_witness :
    (get_user_data [("1", [(⟨2026, 10, 12⟩,
        [⟨"coffee", 5, "Food"⟩])])] "1" ⟨2026, 10, 11⟩ = [] →
      undo [("1", [(⟨2026, 10, 12⟩, [⟨"coffee", 5, "Food"⟩])])] "1"
        ⟨2026, 10, 11⟩ =
      (none, [("1", [(⟨2026, 10, 12⟩, [⟨"coffee", 5, "Food"⟩])])])) ∧
    (∀ b x, get_user_data [("1", [(⟨2026, 10, 12⟩,
        [⟨"coffee", 5, "Food"⟩])])] "1" ⟨2026, 10, 11⟩ = b ++ [x] →
      (undo [("1", [(⟨2026, 10, 12⟩, [⟨"coffee", 5, "Food"⟩])])] "1"
        ⟨2026, 10, 11⟩).1 = some x ∧
      get_user_data (undo [("1", [(⟨2026, 10, 12⟩,
        [⟨"coffee", 5, "Food"⟩])])] "1" ⟨2026, 10, 11⟩).2 "1"
        ⟨2026, 10, 11⟩ = b) ∧
    (∀ v d, v ≠ "1" ∨ d ≠ ⟨2026, 10, 11⟩ →
      get_user_data (undo [("1", [(⟨2026, 10, 12⟩,
        [⟨"coffee", 5, "Food"⟩])])] "1" ⟨2026, 10, 11⟩).2 v d =
      get_user_data [("1", [(⟨2026, 10, 12⟩,
        [⟨"coffee", 5, "Food"⟩])])] v d) :=
  undoLast_pops_today_only
    [("1", [(⟨2026, 10, 12⟩, [⟨"coffee", 5, "Food"⟩])])] "1" ⟨2026, 10, 11⟩

/-- Claim C9: the engine never validates the sign of the amount: for every
amount that parsed as a number — zero and negatives included, since the
universal quantifier ranges over all of `ℚ` — `add_expense_to_data` appends
the entry and the `format_summary` daily total includes that amount. -/
theorem record_accepts_zero_and_negative_amounts (e : Ledger) (u : String)
    (t : Date) (n : String) (amount : ℚ) (c : String) :
    get_user_data (add_expense_to_data e u t n amount c) u t =
      get_user_data e u t ++ [⟨n, amount, c⟩] ∧
    format_summary_total
        (get_user_data (add_expense_to_data e u t n amount c) u t) =
      format_summary_total (get_user_data e u t) + amount := by
  refine ⟨get_user_data_add_self e u t n amount c, ?_⟩
  rw [get_user_data_add_self e u t n amount c, format_summary_total,
    format_summary_total, List.map_append, List.sum_append]
  simp

/-- Gregorian leap-year rule used by `datetime.date`. -/
def isLeapYear (y : Nat) : Bool :=
  (y % 4 == 0 && y % 100 != 0) || y % 400 == 0

/-- Days in a month of the proleptic Gregorian calendar of `datetime`. -/
def daysInMonth (y m : Nat) : Nat :=
  if m = 2 then (if isLeapYear y then 29 else 28)
  else if m = 4 ∨ m = 6 ∨ m = 9 ∨ m = 11 then 30
  else 31

/-- `d - timedelta(days=1)`: the previous calendar day. -/
def Date.prevDay (d : Date) : Date :=
  if 1 < d.day then ⟨d.year, d.month, d.day - 1⟩
  else if 1 < d.month then
    ⟨d.year, d.month - 1, daysInMonth d.year (d.month - 1)⟩
  else ⟨d.year - 1, 12, 31⟩

/-- `week_summary`: for `i in range(7)` look up the bucket of
`today - timedelta(days=i)` (empty when absent), append the row
`(day, day_total)` and add the day total into the running week total. -/
def week_summary (expenses : Ledger) (user_id : String) (today : Date) :
    List (Date × ℚ) × ℚ :=
  let user_data := dictGet expenses user_id []
  (List.range 7).foldl (fun acc i =>
    let day := Date.prevDay^[i] today
    let day_expenses := dictGet user_data day []
    let day_total := (day_expenses.map Entry.amount).sum
    (acc.1 ++ [(day, day_total)], acc.2 + day_total)) ([], 0)

theorem week_summary_foldl (e : Ledger) (u : String) (t : Date)
    (l : List Nat) (acc : List (Date × ℚ) × ℚ) :
    l.foldl (fun acc i =>
      let day := Date.prevDay^[i] t
      let day_expenses := dictGet (dictGet e u []) day []
      let day_total := (day_expenses.map Entry.amount).sum
      (acc.1 ++ [(day, day_total)], acc.2 + day_total)) acc =
    (acc.1 ++ l.map (fun i => (Date.prevDay^[i] t,
        ((dictGet (dictGet e u []) (Date.prevDay^[i] t) []).map
          Entry.amount).sum)),
      acc.2 + (l.map (fun i =>
        ((dictGet (dictGet e u []) (Date.prevDay^[i] t) []).map
          Entry.amount).sum)).sum) := by
  induction l generalizing acc with
  | nil => simp
  | cons i rest ih =>
      simp only [List.foldl_cons, List.map_cons, List.sum_cons, ih,
        List.append_assoc, List.singleton_append]
      rw [Prod.mk.injEq]
      exact ⟨rfl, by ring⟩

/-- The comparison `sorted(user_data.items())` sorts by: ISO date-string
keys ascending (dict keys are unique, so the tuple comparison never reaches
the second component). -/
def byDateKey (p q : Date × DayBucket) : Prop := p.1.key ≤ q.1.key

instance : DecidableRel byDateKey := fun p q => Nat.decLe p.1.key q.1.key

instance : IsTotal (Date × DayBucket) byDateKey :=
  ⟨fun p q => Nat.le_total p.1.key q.1.key⟩

instance : IsTrans (Date × DayBucket) byDateKey :=
  ⟨fun _ _ _ => Nat.le_trans⟩

/-- `month_daily_summary`: iterate `sorted(user_data.items())`, keep the day
keys of the current month and year, and for each kept key append the row
`(day, day_total)` and add the day total to the running month total; reply
"No expenses recorded this month." (modelled `none`) when no row was
produced. -/
def month_daily_summary (expenses : Ledger) (user_id : String)
    (today : Date) : Option (List (Date × ℚ) × ℚ) :=
  let user_data := dictGet expenses user_id []
  let p := (List.insertionSort byDateKey user_data).foldl (fun acc pr =>
    if pr.1.month = today.month ∧ pr.1.year = today.year then
      let day_total := (pr.2.map Entry.amount).sum
      (acc.1 ++ [(pr.1, day_total)], acc.2 + day_total)
    else acc) ([], 0)
  if p.1 = [] then none else some p

/-- The predicate of the `if day_date.month == today.month and
day_date.year == today.year` filter. -/
def inMonth (today : Date) (pr : Date × DayBucket) : Bool :=
  decide (pr.1.month = today.month ∧ pr.1.year = today.year)

theorem month_daily_foldl (t : Date) (l : List (Date × DayBucket))
    (acc : List (Date × ℚ) × ℚ) :
    l.foldl (fun acc pr =>
      if pr.1.month = t.month ∧ pr.1.year = t.year then
        let day_total := (pr.2.map Entry.amount).sum
        (acc.1 ++ [(pr.1, day_total)], acc.2 + day_total)
      else acc) acc =
    (acc.1 ++ (l.filter (inMonth t)).map
        (fun pr => (pr.1, (pr.2.map Entry.amount).sum)),
      acc.2 + ((l.filter (inMonth t)).map
        (fun pr => (pr.2.map Entry.amount).sum)).sum) := by
  induction l generalizing acc with
  | nil => simp
  | cons pr rest ih =>
      by_cases h : pr.1.month = t.month ∧ pr.1.year = t.year
      · simp only [List.foldl_cons, if_pos h, ih, List.filter_cons,
          inMonth, decide_eq_true h, if_pos, List.map_cons, List.sum_cons,
          List.append_assoc, List.singleton_append]
        rw [Prod.mk.injEq]
        exact ⟨rfl, by ring⟩
      · have hd : decide (pr.1.month = t.month ∧ pr.1.year = t.year) = false :=
          decide_eq_false h
        simp only [List.foldl_cons, if_neg h, ih, List.filter_cons, inMonth,
          hd, if_neg, Bool.false_eq_true, not_false_eq_true]

theorem week_summary_eq (e : Ledger) (u : String) (t : Date) :
    week_summary e u t =
      ((List.range 7).map (fun i => (Date.prevDay^[i] t,
        ((dictGet (dictGet e u []) (Date.prevDay^[i] t) []).map
          Entry.amount).sum)),
       ((List.range 7).map (fun i =>
        ((dictGet (dictGet e u []) (Date.prevDay^[i] t) []).map
          Entry.amount).sum)).sum) := by
  have h := week_summary_foldl e u t (List.range 7) ([], 0)
  simpa [week_summary] using h

/-- Claim C7: `weeklySummary` returns exactly 7 per-day rows, whose dates
are today and the 6 preceding calendar days in order (today first, walking
backward one day at a time); every row's total is the sum of the amounts in
that day's bucket — 0 for days with no entries — and the reported 7-day sum
equals the sum of the 7 row totals. -/
theorem weekly_summary_seven_rows (e : Ledger) (u : String) (t : Date) :
    (week_summary e u t).1.length = 7 ∧
    (week_summary e u t).1.map Prod.fst =
      (List.range 7).map (fun i => Date.prevDay^[i] t) ∧
    (week_summary e u t).2 = ((week_summary e u t).1.map Prod.snd).sum ∧
    ∀ r ∈ (week_summary e u t).1,
      r.2 = format_summary_total (get_user_data e u r.1) := by
  rw [week_summary_eq]
  refine ⟨by simp, by simp [List.map_map]; rfl, by simp [List.map_map]; rfl,
    ?_⟩
  intro r hr
  simp only [List.mem_map] at hr
  obtain ⟨i, _, hi⟩ := hr
  rw [← hi]
  rfl

theorem weekly_summary_seven_rows_witness :
    (week_summary [] "1" ⟨2026, 10, 12⟩).1.length = 7 ∧
    (week_summary [] "1" ⟨2026, 10, 12⟩).1.map Prod.fst =
      (List.range 7).map (fun i => Date.prevDay^[i] ⟨2026, 10, 12⟩) ∧
    (week_summary [] "1" ⟨2026, 10, 12⟩).2 =
      ((week_summary [] "1" ⟨2026, 10, 12⟩).1.map Prod.snd).sum ∧
    ∀ r ∈ (week_summary [] "1" ⟨2026, 10, 12⟩).1,
      r.2 = format_summary_total (get_user_data [] "1" r.1) :=
  weekly_summary_seven_rows [] "1" ⟨2026, 10, 12⟩

/-- Claim C10: frame property of one dispatched command over the shared
ledger: `record` and `undoLast` may change only today's bucket of the
issuing user — every other user's data and every other date's bucket read
back unchanged — and the four summary commands leave the ledger literally
unchanged. -/
theorem ledger_frame_property (t : Date) (e : Ledger) (cmd : Command) :
    (∀ v d, Command.mutTarget t cmd ≠ some (v, d) →
      get_user_data (stepLedger t e cmd) v d = get_user_data e v d) ∧
    (Command.mutTarget t cmd = none → stepLedger t e cmd = e) := by
  cases cmd with
  | record u n a c =>
      refine ⟨?_, fun h => by simp [Command.mutTarget] at h⟩
      intro v d hne
      apply get_user_data_add_ne
      by_cases hv : v = u
      · subst hv
        right
        intro hd
        exact hne (by rw [hd]; rfl)
      · exact Or.inl hv
  | undoLast u =>
      refine ⟨?_, fun h => by simp [Command.mutTarget] at h⟩
      intro v d hne
      apply get_user_data_undo_ne
      by_cases hv : v = u
      · subst hv
        right
        intro hd
        exact hne (by rw [hd]; rfl)
      · exact Or.inl hv
  | daily u => exact ⟨fun v d _ => rfl, fun _ => rfl⟩
  | weekly u => exact ⟨fun v d _ => rfl, fun _ => rfl⟩
  | monthDaily u => exact ⟨fun v d _ => rfl, fun _ => rfl⟩
  | monthCategory u => exact ⟨fun v d _ => rfl, fun _ => rfl⟩

theorem ledger_frame_property_witness :
    (∀ v d, Command.mutTarget ⟨2026, 10, 12⟩
        (Command.record "1" "coffee" 5 "Food") ≠ some (v, d) →
      get_user_data (stepLedger ⟨2026, 10, 12⟩ []
        (Command.record "1" "coffee" 5 "Food")) v d =
      get_user_data [] v d) ∧
    (Command.mutTarget ⟨2026, 10, 12⟩
        (Command.record "1" "coffee" 5 "Food") = none →
      stepLedger ⟨2026, 10, 12⟩ [] (Command.record "1" "coffee" 5 "Food") =
        []) :=
  ledger_frame_property ⟨2026, 10, 12⟩ [] (Command.record "1" "coffee" 5 "Food")

theorem month_daily_summary_eq (e : Ledger) (u : String) (t : Date) :
    month_daily_summary e u t =
      (if ((List.insertionSort byDateKey (dictGet e u [])).filter
            (inMonth t)).map
            (fun pr => (pr.1, (pr.2.map Entry.amount).sum)) = [] then none
       else some
        (((List.insertionSort byDateKey (dictGet e u [])).filter
            (inMonth t)).map
            (fun pr => (pr.1, (pr.2.map Entry.amount).sum)),
         (((List.insertionSort byDateKey (dictGet e u [])).filter
            (inMonth t)).map
            (fun pr => (pr.2.map Entry.amount).sum)).sum)) := by
  have h := month_daily_foldl t
    (List.insertionSort byDateKey (dictGet e u [])) ([], 0)
  simp only [month_daily_summary]
  rw [h]
  simp

theorem perm_eq_nil_iff {α : Type} {l l' : List α} (h : l.Perm l') :
    l = [] ↔ l' = [] := by
  constructor
  · intro hl
    subst hl
    exact (List.Perm.symm h).eq_nil
  · intro hl
    subst hl
    exact h.eq_nil

/-- Claim C3 (amended): `month_daily_summary` returns one row per day KEY of
the user ledger lying in the current month — a key whose bucket undo has
emptied still produces a row, with total 0, so "day with at least one entry"
must be weakened to "day key present" — in ascending date-key order; the
month total equals the sum of the row totals; and the explicit empty result
is returned exactly when the user ledger holds no current-month day key. -/
theorem month_daily_rows_per_day_key (e : Ledger) (u : String) (t : Date) :
    (month_daily_summary e u t = none ↔
      (dictGet e u []).filter (inMonth t) = []) ∧
    (∀ rows total, month_daily_summary e u t = some (rows, total) →
      rows = ((List.insertionSort byDateKey (dictGet e u [])).filter
          (inMonth t)).map (fun pr => (pr.1, (pr.2.map Entry.amount).sum)) ∧
      total = (rows.map Prod.snd).sum ∧
      rows.Pairwise (fun r s => r.1.key ≤ s.1.key)) := by
  have hperm : ((List.insertionSort byDateKey (dictGet e u [])).filter
      (inMonth t)).Perm ((dictGet e u []).filter (inMonth t)) :=
    (List.perm_insertionSort byDateKey (dictGet e u [])).filter (inMonth t)
  constructor
  · rw [month_daily_summary_eq]
    by_cases hnil : ((List.insertionSort byDateKey (dictGet e u [])).filter
        (inMonth t)).map (fun pr => (pr.1, (pr.2.map Entry.amount).sum)) = []
    · rw [if_pos hnil]
      rw [List.map_eq_nil_iff] at hnil
      exact iff_of_true rfl ((perm_eq_nil_iff hperm).mp hnil)
    · rw [if_neg hnil]
      rw [List.map_eq_nil_iff] at hnil
      exact iff_of_false (by simp)
        (fun h => hnil ((perm_eq_nil_iff hperm).mpr h))
  · intro rows total hsome
    rw [month_daily_summary_eq] at hsome
    by_cases hnil : ((List.insertionSort byDateKey (dictGet e u [])).filter
        (inMonth t)).map (fun pr => (pr.1, (pr.2.map Entry.amount).sum)) = []
    · rw [if_pos hnil] at hsome
      cases hsome
    · rw [if_neg hnil, Option.some.injEq, Prod.mk.injEq] at hsome
      obtain ⟨hrows, htotal⟩ := hsome
      refine ⟨hrows.symm, ?_, ?_⟩
      · rw [← hrows, ← htotal, List.map_map]
        rfl
      · rw [← hrows]
        rw [List.pairwise_map]
        have hs : List.Pairwise byDateKey
            ((List.insertionSort byDateKey (dictGet e u [])).filter
              (inMonth t)) :=
          (List.sorted_insertionSort byDateKey (dictGet e u [])).filter _
        exact hs.imp (fun h => h)

theorem month_daily_rows_per_day_key_witness :
    month_daily_summary [] "1" ⟨2026, 10, 12⟩ = none ∧
    (([(⟨2026, 10, 12⟩, (5 : ℚ))] : List (Date × ℚ)) =
      ((List.insertionSort byDateKey (dictGet
          ([("1", [(⟨2026, 10, 12⟩, [⟨"coffee", 5, "Food"⟩])])] : Ledger)
          "1" [])).filter (inMonth ⟨2026, 10, 12⟩)).map
        (fun pr => (pr.1, (pr.2.map Entry.amount).sum)) ∧
     (5 : ℚ) =
      (([(⟨2026, 10, 12⟩, (5 : ℚ))] : List (Date × ℚ)).map Prod.snd).sum ∧
     ([(⟨2026, 10, 12⟩, (5 : ℚ))] : List (Date × ℚ)).Pairwise
        (fun r s => r.1.key ≤ s.1.key)) := by
  constructor
  · exact (month_daily_rows_per_day_key [] "1" ⟨2026, 10, 12⟩).1.mpr rfl
  · exact (month_daily_rows_per_day_key
        [("1", [(⟨2026, 10, 12⟩, [⟨"coffee", 5, "Food"⟩])])] "1"
        ⟨2026, 10, 12⟩).2 [(⟨2026, 10, 12⟩, (5 : ℚ))] 5
      (by norm_num [month_daily_summary, dictGet, List.insertionSort,
        List.orderedInsert, inMonth])

/-- Claim C3 counterexample: record one expense today, then undo it; today's
bucket is now empty, so the month has zero entries, yet `month_daily_summary`
returns a `$0.00` row for today instead of producing no row for that day and
the explicit empty result for the month. -/
theorem month_daily_empty_day_gets_row :
    get_user_data ((undo (add_expense_to_data [] "1" ⟨2026, 10, 12⟩
        "coffee" 5 "Food") "1" ⟨2026, 10, 12⟩).2) "1" ⟨2026, 10, 12⟩ = [] ∧
    month_daily_summary ((undo (add_expense_to_data [] "1" ⟨2026, 10, 12⟩
        "coffee" 5 "Food") "1" ⟨2026, 10, 12⟩).2) "1" ⟨2026, 10, 12⟩ =
      some ([(⟨2026, 10, 12⟩, 0)], 0) := by
  constructor
  · norm_num [undo, add_expense_to_data, get_user_data, dictGet, dictSet]
  · norm_num [month_daily_summary, undo, add_expense_to_data, dictGet,
      dictSet, List.insertionSort, List.orderedInsert]

/-- Outcome of the `/month_category` handler: either one line per category
(first-appearance order) with its exact percentage, plus the month total, or
an uncaught Python exception terminating the handler. -/
inductive CatResult where
  | crash (msg : String)
  | rows (lines : List (String × ℚ × ℚ)) (total : ℚ)
deriving DecidableEq, Repr

/-- `month_category_summary`: accumulate `category_totals` (a dict in
first-appearance order) and `total_month` over every current-month bucket in
insertion order; when `total_month == 0` the handler sends "No expenses
recorded this month." and then evaluates the bare name `returnpy` — the line
was evidently meant to be `return` (the commented-out earlier copy of the
file has `return` here), but as written it is an undefined name, so the
handler raises `NameError` instead of returning (modelled `.crash`);
otherwise one line per category with `percent = amt / total_month * 100`
(displayed rounded to one decimal by `"%.1f"`). -/
def month_category_summary (expenses : Ledger) (user_id : String)
    (today : Date) : CatResult :=
  let user_data := dictGet expenses user_id []
  let p := user_data.foldl (fun acc pr =>
    if pr.1.month = today.month ∧ pr.1.year = today.year then
      pr.2.foldl (fun a en =>
        (dictSet a.1 en.category (dictGet a.1 en.category 0 + en.amount),
          a.2 + en.amount)) acc
    else acc) (([] : List (String × ℚ)), (0 : ℚ))
  if p.2 = 0 then CatResult.crash "NameError: name returnpy is not defined"
  else CatResult.rows (p.1.map (fun c => (c.1, c.2, c.2 / p.2 * 100))) p.2

/-- Sum of the values of a category-totals dict. -/
def sumVals (m : List (String × ℚ)) : ℚ := (m.map Prod.snd).sum

theorem sumVals_dictSet_add (m : List (String × ℚ)) (k : String) (a : ℚ) :
    sumVals (dictSet m k (dictGet m k 0 + a)) = sumVals m + a := by
  induction m with
  | nil => simp [sumVals, dictGet, dictSet]
  | cons p rest ih =>
      by_cases h : p.1 = k
      · simp only [dictGet, dictSet, if_pos h, sumVals, List.map_cons,
          List.sum_cons]
        ring
      · simp only [dictGet, dictSet, if_neg h, sumVals, List.map_cons,
          List.sum_cons] at ih ⊢
        rw [ih]
        ring

theorem cat_inner_foldl (es : List Entry) (acc : List (String × ℚ) × ℚ) :
    sumVals (es.foldl (fun a en =>
        (dictSet a.1 en.category (dictGet a.1 en.category 0 + en.amount),
          a.2 + en.amount)) acc).1 =
      sumVals acc.1 + (es.map Entry.amount).sum ∧
    (es.foldl (fun a en =>
        (dictSet a.1 en.category (dictGet a.1 en.category 0 + en.amount),
          a.2 + en.amount)) acc).2 =
      acc.2 + (es.map Entry.amount).sum := by
  induction es generalizing acc with
  | nil => simp
  | cons en rest ih =>
      simp only [List.foldl_cons, List.map_cons, List.sum_cons]
      obtain ⟨ih1, ih2⟩ := ih
        (dictSet acc.1 en.category (dictGet acc.1 en.category 0 + en.amount),
          acc.2 + en.amount)
      constructor
      · rw [ih1, sumVals_dictSet_add]
        ring
      · rw [ih2]
        ring

theorem cat_outer_foldl (t : Date) (l : List (Date × DayBucket))
    (acc : List (String × ℚ) × ℚ) :
    sumVals (l.foldl (fun acc pr =>
        if pr.1.month = t.month ∧ pr.1.year = t.year then
          pr.2.foldl (fun a en =>
            (dictSet a.1 en.category (dictGet a.1 en.category 0 + en.amount),
              a.2 + en.amount)) acc
        else acc) acc).1 =
      sumVals acc.1 +
        (((l.filter (inMonth t)).map
          (fun pr => (pr.2.map Entry.amount).sum)).sum) ∧
    (l.foldl (fun acc pr =>
        if pr.1.month = t.month ∧ pr.1.year = t.year then
          pr.2.foldl (fun a en =>
            (dictSet a.1 en.category (dictGet a.1 en.category 0 + en.amount),
              a.2 + en.amount)) acc
        else acc) acc).2 =
      acc.2 +
        (((l.filter (inMonth t)).map
          (fun pr => (pr.2.map Entry.amount).sum)).sum) := by
  induction l generalizing acc with
  | nil => simp
  | cons pr rest ih =>
      by_cases h : pr.1.month = t.month ∧ pr.1.year = t.year
      · have hd : inMonth t pr = true := decide_eq_true h
        simp only [List.foldl_cons, if_pos h, List.filter_cons, hd, if_true,
          List.map_cons, List.sum_cons]
        obtain ⟨ih1, ih2⟩ := ih (pr.2.foldl (fun a en =>
          (dictSet a.1 en.category (dictGet a.1 en.category 0 + en.amount),
            a.2 + en.amount)) acc)
        obtain ⟨hi1, hi2⟩ := cat_inner_foldl pr.2 acc
        constructor
        · rw [ih1, hi1]
          ring
        · rw [ih2, hi2]
          ring
      · have hd : inMonth t pr = false := decide_eq_false h
        simp only [List.foldl_cons, if_neg h, List.filter_cons, hd,
          Bool.false_eq_true, if_false]
        exact ih acc

/-- One-decimal rounding, as applied by the `"%.1f"` display of the
percentage (modelled on exact rationals). -/
def round1 (q : ℚ) : ℚ := (round (q * 10) : ℤ) / 10

theorem abs_round1_sub_le (q : ℚ) : |round1 q - q| ≤ 1 / 20 := by
  have h := abs_sub_round (q * 10)
  rw [round1]
  have hrw : (round (q * 10) : ℚ) / 10 - q =
      -((q * 10 - (round (q * 10) : ℚ)) / 10) := by ring
  rw [hrw, abs_neg, abs_div, abs_of_pos (by norm_num : (0 : ℚ) < 10)]
  linarith

theorem sum_round1_close (l : List ℚ) :
    |(l.map round1).sum - l.sum| ≤ (l.length : ℚ) * (1 / 20) := by
  induction l with
  | nil => simp
  | cons q rest ih =>
      simp only [List.map_cons, List.sum_cons, List.length_cons]
      have h1 := abs_round1_sub_le q
      have habs : |round1 q + (rest.map round1).sum - (q + rest.sum)| ≤
          |round1 q - q| + |(rest.map round1).sum - rest.sum| := by
        have : round1 q + (rest.map round1).sum - (q + rest.sum) =
            (round1 q - q) + ((rest.map round1).sum - rest.sum) := by ring
        rw [this]
        exact abs_add _ _
      push_cast
      linarith

theorem sum_map_percent (m : List (String × ℚ)) (T : ℚ) :
    (m.map (fun c => c.2 / T * 100)).sum = sumVals m / T * 100 := by
  induction m with
  | nil => simp [sumVals]
  | cons p rest ih =>
      simp only [List.map_cons, List.sum_cons, sumVals] at ih ⊢
      rw [ih]
      ring

/-- Claim C4 (code bug): on a ledger whose current-month total is zero the
handler sends the "No expenses recorded this month." reply and never reaches
the percentage division, but the next statement is the bare name `returnpy`
— evidently a typo for `return` (the commented-out earlier copy of the
handler has `return` at this spot) — which is undefined, so the handler
raises `NameError` instead of returning normally: the zero-total month is a
crash in the code where the claim requires a normal empty-result signal. -/
theorem month_category_zero_total_raises :
    month_category_summary [] "1" ⟨2026, 10, 12⟩ =
      CatResult.crash "NameError: name returnpy is not defined" := rfl

/-- Claim C5 counterexample: "Groceries" is outside the fixed category set,
yet recording an expense with it appends the entry anyway — neither
`category_selected` nor `add_expense_to_data` ever checks membership in
`CATEGORIES`, so "the ledger engine rejects it and no Entry is appended"
fails. -/
theorem unknown_category_appended :
    ("Groceries" ∉ CATEGORIES) ∧
    get_user_data (add_expense_to_data [] "1" ⟨2026, 10, 12⟩ "milk" 5
        "Groceries") "1" ⟨2026, 10, 12⟩ = [⟨"milk", 5, "Groceries"⟩] := by
  constructor
  · decide
  · norm_num [add_expense_to_data, get_user_data, dictGet, dictSet]

/-- Claim C5 (amended): the category set is fixed and the adapter renders
its selection menu from `CATEGORIES`, but the ledger engine performs no
membership validation: even when the supplied category string lies outside
the fixed set, the entry is appended to today's bucket unchanged. -/
theorem record_appends_any_category (e : Ledger) (u : String) (t : Date)
    (n : String) (a : ℚ) (c : String) (_h : c ∉ CATEGORIES) :
    get_user_data (add_expense_to_data e u t n a c) u t =
      get_user_data e u t ++ [⟨n, a, c⟩] :=
  get_user_data_add_self e u t n a c

theorem record_appends_any_category_witness :
    get_user_data (add_expense_to_data [] "1" ⟨2026, 10, 12⟩ "milk" 5
        "NotACategory") "1" ⟨2026, 10, 12⟩ =
      get_user_data [] "1" ⟨2026, 10, 12⟩ ++ [⟨"milk", 5, "NotACategory"⟩] :=
  record_appends_any_category [] "1" ⟨2026, 10, 12⟩ "milk" 5 "NotACategory"
    (by decide)

/-- Claim C6: whenever `month_category_summary` produces category lines (it
does exactly when the month total is non-zero), every line carries
`percentage = categoryTotal / monthTotal * 100` (displayed to one decimal,
i.e. through `round1`), the exact percentages sum to exactly 100 — so the
displayed one-decimal percentages sum to 100 within `n * 0.05` for `n`
lines — and in particular Food=30 and Transport=10 in the current month
yields Food 75.0 %, Transport 25.0 %, month total 40. -/
theorem month_category_percentages :
    (∀ (e : Ledger) (u : String) (t : Date)
        (lines : List (String × ℚ × ℚ)) (total : ℚ),
      month_category_summary e u t = CatResult.rows lines total →
      total ≠ 0 ∧
      (∀ l ∈ lines, l.2.2 = l.2.1 / total * 100) ∧
      (lines.map (fun l => l.2.2)).sum = 100 ∧
      |(lines.map (fun l => round1 l.2.2)).sum - 100| ≤
        (lines.length : ℚ) * (1 / 20)) ∧
    month_category_summary
        [("U", [(⟨2026, 10, 12⟩,
          [⟨"groceries", 30, "Food"⟩, ⟨"bus", 10, "Transport"⟩])])] "U"
        ⟨2026, 10, 12⟩ =
      CatResult.rows [("Food", 30, 75), ("Transport", 10, 25)] 40 ∧
    round1 75 = 75 ∧ round1 25 = 25 := by
  refine ⟨?_, ?_, by norm_num [round1], by norm_num [round1]⟩
  · intro e u t lines total h
    simp only [month_category_summary] at h
    set P := (dictGet e u []).foldl (fun acc pr =>
      if pr.1.month = t.month ∧ pr.1.year = t.year then
        pr.2.foldl (fun a en =>
          (dictSet a.1 en.category (dictGet a.1 en.category 0 + en.amount),
            a.2 + en.amount)) acc
      else acc) (([] : List (String × ℚ)), (0 : ℚ)) with hP
    have hsum : sumVals P.1 = P.2 := by
      rw [hP]
      obtain ⟨h1, h2⟩ := cat_outer_foldl t (dictGet e u [])
        (([] : List (String × ℚ)), (0 : ℚ))
      rw [h1, h2]
      simp [sumVals]
    by_cases hz : P.2 = 0
    · rw [if_pos hz] at h
      cases h
    · rw [if_neg hz, CatResult.rows.injEq] at h
      obtain ⟨hlines, htotal⟩ := h
      subst htotal
      refine ⟨hz, ?_, ?_, ?_⟩
      · intro l hl
        rw [← hlines] at hl
        simp only [List.mem_map] at hl
        obtain ⟨c, _, hc⟩ := hl
        rw [← hc]
      · rw [← hlines, List.map_map]
        have : ((fun l : String × ℚ × ℚ => l.2.2) ∘
            (fun c : String × ℚ => (c.1, c.2, c.2 / P.2 * 100))) =
            (fun c : String × ℚ => c.2 / P.2 * 100) := rfl
        rw [this, sum_map_percent, hsum, div_self hz, one_mul]
      · have hexact : (lines.map (fun l => l.2.2)).sum = 100 := by
          rw [← hlines, List.map_map]
          have : ((fun l : String × ℚ × ℚ => l.2.2) ∘
              (fun c : String × ℚ => (c.1, c.2, c.2 / P.2 * 100))) =
              (fun c : String × ℚ => c.2 / P.2 * 100) := rfl
          rw [this, sum_map_percent, hsum, div_self hz, one_mul]
        have hclose := sum_round1_close (lines.map (fun l => l.2.2))
        rw [hexact, List.map_map, List.length_map] at hclose
        exact hclose
  · norm_num [month_category_summary, dictGet, dictSet]
    norm_num [show ("Food" : String) ≠ "Transport" from by decide]

theorem month_category_percentages_witness :
    (40 : ℚ) ≠ 0 ∧
    (∀ l ∈ ([("Food", 30, 75), ("Transport", 10, 25)] :
        List (String × ℚ × ℚ)), l.2.2 = l.2.1 / 40 * 100) ∧
    (([("Food", 30, 75), ("Transport", 10, 25)] :
        List (String × ℚ × ℚ)).map (fun l => l.2.2)).sum = 100 ∧
    |(([("Food", 30, 75), ("Transport", 10, 25)] :
        List (String × ℚ × ℚ)).map (fun l => round1 l.2.2)).sum - 100| ≤
      ((([("Food", 30, 75), ("Transport", 10, 25)] :
        List (String × ℚ × ℚ)).length : ℚ)) * (1 / 20) :=
  month_category_percentages.1
    [("U", [(⟨2026, 10, 12⟩,
      [⟨"groceries", 30, "Food"⟩, ⟨"bus", 10, "Transport"⟩])])] "U"
    ⟨2026, 10, 12⟩ [("Food", 30, 75), ("Transport", 10, 25)] 40
    month_category_percentages.2.1

/-- The character of a decimal digit. -/
def digitChar (n : Nat) : Char := Char.ofNat (48 + n)

/-- The numeric value of a decimal digit character. -/
def digitVal (c : Char) : Option Nat :=
  if 48 ≤ c.toNat ∧ c.toNat ≤ 57 then some (c.toNat - 48) else none

/-- The ten characters of `str(d)` for a date: `YYYY-MM-DD`. -/
def toIsoChars (d : Date) : List Char :=
  [digitChar (d.year / 1000 % 10), digitChar (d.year / 100 % 10),
   digitChar (d.year / 10 % 10), digitChar (d.year % 10), '-',
   digitChar (d.month / 10 % 10), digitChar (d.month % 10), '-',
   digitChar (d.day / 10 % 10), digitChar (d.day % 10)]

/-- `str(d)`: the ISO rendering used as the persisted dict key. -/
def dateToIso (d : Date) : String := String.mk (toIsoChars d)

/-- Parse a 10-character ISO `YYYY-MM-DD` string back into a `Date` (the
inverse reading of the persisted dict key). -/
def isoToDate (s : String) : Option Date :=
  match s.data with
  | [y1, y2, y3, y4, s1, m1, m2, s2, d1, d2] =>
      if s1 = '-' ∧ s2 = '-' then
        match digitVal y1, digitVal y2, digitVal y3, digitVal y4,
            digitVal m1, digitVal m2, digitVal d1, digitVal d2 with
        | some a, some b, some c, some e, some f, some g, some h, some i =>
            some ⟨a * 1000 + b * 100 + c * 10 + e, f * 10 + g, h * 10 + i⟩
        | _, _, _, _, _, _, _, _ => none
      else none
  | _ => none

/-- Dates whose components fit in the fixed-width `YYYY-MM-DD` rendering,
as every `datetime.date` does. -/
def validIsoDate (d : Date) : Prop :=
  d.year < 10000 ∧ d.month < 100 ∧ d.day < 100

instance : DecidablePred validIsoDate := fun d =>
  inferInstanceAs (Decidable (d.year < 10000 ∧ d.month < 100 ∧ d.day < 100))

theorem digitVal_digitChar {k : Nat} (h : k < 10) :
    digitVal (digitChar k) = some k := by
  interval_cases k <;> rfl

theorem isoToDate_dateToIso (d : Date) (h : validIsoDate d) :
    isoToDate (dateToIso d) = some d := by
  obtain ⟨hy, hm, hd⟩ := h
  show isoToDate (String.mk (toIsoChars d)) = some d
  rw [isoToDate]
  simp only [toIsoChars]
  rw [digitVal_digitChar (Nat.mod_lt _ (by norm_num)),
    digitVal_digitChar (Nat.mod_lt _ (by norm_num)),
    digitVal_digitChar (Nat.mod_lt _ (by norm_num)),
    digitVal_digitChar (Nat.mod_lt _ (by norm_num)),
    digitVal_digitChar (Nat.mod_lt _ (by norm_num)),
    digitVal_digitChar (Nat.mod_lt _ (by norm_num)),
    digitVal_digitChar (Nat.mod_lt _ (by norm_num)),
    digitVal_digitChar (Nat.mod_lt _ (by norm_num))]
  have h1 : d.year / 1000 % 10 * 1000 + d.year / 100 % 10 * 100 +
      d.year / 10 % 10 * 10 + d.year % 10 = d.year := by omega
  have h2 : d.month / 10 % 10 * 10 + d.month % 10 = d.month := by omega
  have h3 : d.day / 10 % 10 * 10 + d.day % 10 = d.day := by omega
  simp [h1, h2, h3]

/-- The JSON documents that `json.dump` writes and `json.load` reads. -/
inductive Json where
  | str (s : String)
  | num (q : ℚ)
  | arr (elems : List Json)
  | obj (fields : List (String × Json))

/-- An entry `(name, amount, category)` serializes as a 3-element array. -/
def entryToJson (e : Entry) : Json :=
  Json.arr [Json.str e.name, Json.num e.amount, Json.str e.category]

def jsonToEntry : Json → Option Entry
  | Json.arr [Json.str n, Json.num a, Json.str c] => some ⟨n, a, c⟩
  | _ => none

/-- Collect a list of optional values, failing when any is `none`. -/
def allSome {α : Type} : List (Option α) → Option (List α)
  | [] => some []
  | none :: _ => none
  | some a :: rest => (allSome rest).map (a :: ·)

theorem allSome_map {α β : Type} (dec : β → Option α) (enc : α → β)
    (l : List α) (h : ∀ x ∈ l, dec (enc x) = some x) :
    allSome ((l.map enc).map dec) = some l := by
  induction l with
  | nil => rfl
  | cons x rest ih =>
      simp only [List.map_cons]
      rw [h x (List.mem_cons_self x rest), allSome,
        ih (fun y hy => h y (List.mem_cons_of_mem x hy))]
      rfl

def bucketToJson (b : DayBucket) : Json := Json.arr (b.map entryToJson)

def jsonToBucket : Json → Option DayBucket
  | Json.arr xs => allSome (xs.map jsonToEntry)
  | _ => none

def userLedgerToJson (ul : UserLedger) : Json :=
  Json.obj (ul.map (fun p => (dateToIso p.1, bucketToJson p.2)))

def jsonToUserLedger : Json → Option UserLedger
  | Json.obj fs => allSome (fs.map (fun p =>
      match isoToDate p.1, jsonToBucket p.2 with
      | some d, some b => some (d, b)
      | _, _ => none))
  | _ => none

def ledgerToJson (L : Ledger) : Json :=
  Json.obj (L.map (fun p => (p.1, userLedgerToJson p.2)))

def jsonToLedger : Json → Option Ledger
  | Json.obj fs => allSome (fs.map (fun p =>
      match jsonToUserLedger p.2 with
      | some ul => some (p.1, ul)
      | none => none))
  | _ => none

/-- `save_expenses`: `json.dump(expenses, f)` — the document written to
`expenses.json`. -/
def save_expenses (L : Ledger) : Json := ledgerToJson L

/-- The startup load: `json.load(f)` when `expenses.json` exists, otherwise
keep the initial `expenses = {}`. -/
def load_expenses (file : Option Json) : Option Ledger :=
  match file with
  | none => some []
  | some j => jsonToLedger j

theorem jsonToBucket_bucketToJson (b : DayBucket) :
    jsonToBucket (bucketToJson b) = some b := by
  rw [bucketToJson, jsonToBucket]
  exact allSome_map jsonToEntry entryToJson b (fun x _ => rfl)

theorem jsonToUserLedger_userLedgerToJson (ul : UserLedger)
    (h : ∀ q ∈ ul, validIsoDate q.1) :
    jsonToUserLedger (userLedgerToJson ul) = some ul := by
  rw [userLedgerToJson, jsonToUserLedger]
  apply allSome_map
  intro q hq
  rw [isoToDate_dateToIso q.1 (h q hq), jsonToBucket_bucketToJson]

theorem jsonToLedger_ledgerToJson (L : Ledger)
    (h : ∀ p ∈ L, ∀ q ∈ p.2, validIsoDate q.1) :
    jsonToLedger (ledgerToJson L) = some L := by
  rw [ledgerToJson, jsonToLedger]
  apply allSome_map
  intro p hp
  rw [jsonToUserLedger_userLedgerToJson p.2 (h p hp)]

/-- Claim C8: persistence round-trip: writing the ledger with
`save_expenses` (`json.dump`) and re-reading the written document
reproduces the same ledger — same users, same dates, same entries in the
same order — for every ledger whose dates fit the `YYYY-MM-DD` rendering
(as every `datetime.date` does); and loading with no file present produces
the empty ledger. -/
theorem save_load_round_trip :
    load_expenses none = some [] ∧
    ∀ L : Ledger, (∀ p ∈ L, ∀ q ∈ p.2, validIsoDate q.1) →
      load_expenses (some (save_expenses L)) = some L := by
  refine ⟨rfl, ?_⟩
  intro L h
  show jsonToLedger (ledgerToJson L) = some L
  exact jsonToLedger_ledgerToJson L h

theorem save_load_round_trip_witness :
    load_expenses none = some [] ∧
    load_expenses (some (save_expenses
        [("1", [(⟨2026, 10, 12⟩, [⟨"coffee", 5, "Food"⟩])])])) =
      some [("1", [(⟨2026, 10, 12⟩, [⟨"coffee", 5, "Food"⟩])])] :=
  ⟨save_load_round_trip.1,
    save_load_round_trip.2
      [("1", [(⟨2026, 10, 12⟩, [⟨"coffee", 5, "Food"⟩])])]
      (by decide)⟩
